import Mathlib

/-!
Verification of the NFT marketplace API aggregation service
(src/api/services/nft.ts, class NFTService).

The service orchestrates an external blockchain indexer (queried through
GraphQL), a document store of per-NFT enrichment records (categories, view
events), and user/follow records. We shallowly embed the service as pure
functions over an explicit environment `Env`. Fallible operations return
`Except String _`: the TypeScript `try { ... } catch (err) { throw new
Error(msg) }` boundary becomes the `catchWrap` wrapper mapping any internal
failure to the fixed message string.

Collaborators whose code is not part of the service file (the query builder,
the Mongo models, the `populateNFT` helper, the cooldown constant) are
modelled from the specification; each such definition carries a doc comment
saying so.
-/

/-- A category document: identifier plus human-readable code. -/
structure Category where
  id : String
  code : String
deriving DecidableEq, Repr

/-- An indexer NFT record, as returned in `nftEntities.nodes` /
`distinctSerieNfts.nodes`, together with the fields the enrichment merge
attaches in-process (`categories` as category references, `viewsCount`). -/
structure INFT where
  id : String
  serieId : String
  owner : String
  creator : String
  listed : Bool
  categories : List (Option String)
  viewsCount : Nat
deriving DecidableEq, Repr

/-- A local enrichment record (`NftModel` document): chain id plus category
references; an unresolvable category code is persisted as a `none` slot. -/
structure MongoNft where
  chainId : String
  categories : List (Option String)
deriving DecidableEq, Repr

/-- A view event (`NftViewModel` document). -/
structure NftView where
  viewedSerie : String
  viewedId : String
  viewer : Option String
  viewerIp : Option String
  date : Int
deriving DecidableEq, Repr

/-- A user record (`UserModel` document): local `_id` plus wallet id. -/
structure User where
  id : String
  walletId : String
deriving DecidableEq, Repr

/-- A follow edge (`FollowModel` document): follower and followed user ids. -/
structure Follow where
  follower : String
  followed : String
deriving DecidableEq, Repr

/-- The creation DTO (`INftDto`): chain id plus category codes. -/
structure INftDto where
  chainId : String
  categories : List String
deriving DecidableEq, Repr

/-- The environment a service call runs against: the indexer state (the list
of chain records it indexes), the document stores, and failure switches for
the external collaborators (indexer transport, Mongo store, per-record
enrichment rejection). `timeBetweenSameUserViews` is the cooldown constant
`TIME_BETWEEN_SAME_USER_VIEWS` imported from utils. -/
structure Env where
  chain : List INFT
  indexerFails : Bool
  populateFails : List String
  mongoNfts : List MongoNft
  mongoFails : Bool
  users : List User
  follows : List Follow
  categories : List Category
  nftViews : List NftView
  timeBetweenSameUserViews : Int
deriving Repr

/-- The TS try/catch boundary: any internal failure is replaced by the fixed
coarse message, the original cause is discarded. -/
def catchWrap {α : Type} (body : Except Unit α) (msg : String) : Except String α :=
  match body with
  | .ok a => .ok a
  | .error _ => .error msg

/-- Modelled from the spec: `Promise.all` over a batch of independent
fallible computations — a single rejection rejects the whole batch. -/
def promiseAll {α β : Type} (f : α → Except Unit β) : List α → Except Unit (List β)
  | [] => .ok []
  | x :: xs =>
    match f x, promiseAll f xs with
    | .ok y, .ok ys => .ok (y :: ys)
    | .error e, _ => .error e
    | .ok _, .error e => .error e

/-- Modelled from the spec (query builder `listed` filter, file not in src):
filter for listed (true) or non listed (false); absent gets all. -/
def applyListed (listed : Option Bool) (xs : List INFT) : List INFT :=
  match listed with
  | none => xs
  | some b => xs.filter (fun n => n.listed == b)

/-- Modelled from the spec (query builder pagination, file not in src):
absence of a limit means return all, unpaginated. -/
def applyPagination (page limit : Option Nat) (xs : List INFT) : List INFT :=
  match limit with
  | none => xs
  | some l => ((xs.drop ((page.getD 1 - 1) * l)).take l)

/-- Modelled from the spec (the indexer distinct-by-series envelope):
recursion with the set of non-zero serie ids already emitted. -/
def distinctOnSerieAux : List String → List INFT → List INFT
  | _, [] => []
  | seen, n :: rest =>
    if n.serieId == "0" then n :: distinctOnSerieAux seen rest
    else if seen.contains n.serieId then distinctOnSerieAux seen rest
    else n :: distinctOnSerieAux (n.serieId :: seen) rest

/-- Modelled from the spec (the indexer distinct-by-series envelope): collapse
all NFTs sharing a non-zero serie id into one entry, keeping the first; NFTs
with serie id "0" are never collapsed. -/
def distinctOnSerie (l : List INFT) : List INFT :=
  distinctOnSerieAux [] l

/-- Modelled from the spec: executing an indexer query; the transport can
fail, in which case the result is an internal error. -/
def requestIndexer (env : Env) (nodes : List INFT) : Except Unit (List INFT) :=
  if env.indexerFails then .error () else .ok nodes

/-- Modelled from the spec (`populateNFT` helper, src/api/helpers/nftHelpers,
file not in src): look up the local enrichment record by chain id; if found
attach its categories, if not found attach an empty category set; the lookup
itself can reject, failing this record. -/
def populateNFT (env : Env) (n : INFT) : Except Unit INFT :=
  if env.populateFails.contains n.id then .error ()
  else
    .ok { n with categories :=
            match env.mongoNfts.find? (fun r => r.chainId == n.id) with
            | some r => r.categories
            | none => [] }

/-- Modelled from the spec (`CategoryService.getCategoryByCode`, file not in
src): resolve a human-readable code to a category document, absent when the
code is unresolvable. -/
def getCategoryByCode (env : Env) (code : String) : Option Category :=
  env.categories.find? (fun c => c.code == code)

/-- The view events consulted by `getNFT`: scoped to the viewed serie when
the record has one, to the record id when the serie id is "0"
(`NftViewModel.find(NFT.serieId !== "0" ? {viewedSerie} : {viewedId})`). -/
def scopedViews (env : Env) (serieId id : String) : List NftView :=
  env.nftViews.filter (fun v =>
    if serieId == "0" then v.viewedId == id else v.viewedSerie == serieId)

/-- The cooldown test of `getNFT`: record a new view when no prior event
exists in scope, or when every prior event from the same viewer address is
older than the cooldown (in the source, `date - Math.max(...)` over the
viewer-filtered dates, where the max of an empty list is minus infinity so
the comparison holds vacuously). -/
def viewCooldownOk (env : Env) (views : List NftView) (viewerIp : Option String) (date : Int) : Bool :=
  views.isEmpty ||
    (views.filter (fun v => v.viewerIp == viewerIp)).all
      (fun v => decide (date - v.date > env.timeBetweenSameUserViews))

/-- NFTService.getNFT body: fetch the record by id from the indexer (absent
record is an internal error), enrich it, and when `incViews` is set consult
the scoped view events, record a new one when the cooldown test passes and a
viewer address is present, and set `viewsCount` accordingly. Returns the
record together with the updated view-event store. -/
def getNFTAux (env : Env) (id : String) (incViews : Bool)
    (viewerWalletId viewerIp : Option String) (date : Int) :
    Except Unit (INFT × List NftView) :=
  if env.indexerFails then .error () else
  match env.chain.filter (fun n => n.id == id) with
  | [] => .error ()
  | nft0 :: _ =>
    match populateNFT env nft0 with
    | .error e => .error e
    | .ok nft =>
      if incViews then
        let views := scopedViews env nft.serieId id
        if viewerIp.isSome && viewCooldownOk env views viewerIp date then
          .ok ({ nft with viewsCount := views.length + 1 },
               env.nftViews ++ [⟨nft.serieId, id, viewerWalletId, viewerIp, date⟩])
        else
          .ok ({ nft with viewsCount := views.length }, env.nftViews)
      else
        .ok ({ nft with viewsCount := 0 }, env.nftViews)

/-- NFTService.getNFT with its catch boundary. -/
def getNFT (env : Env) (id : String) (incViews : Bool)
    (viewerWalletId viewerIp : Option String) (date : Int) :
    Except String (INFT × List NftView) :=
  catchWrap (getNFTAux env id incViews viewerWalletId viewerIp date) "Couldn\x27t get NFT"

/-- NFTService.getAllNFTs body: run the distinct-by-series query and enrich
every returned record in parallel. -/
def getAllNFTsAux (env : Env) (page limit : Option Nat) (listed : Option Bool) :
    Except Unit (List INFT) :=
  match requestIndexer env (applyPagination page limit (applyListed listed (distinctOnSerie env.chain))) with
  | .error e => .error e
  | .ok nodes => promiseAll (populateNFT env) nodes

/-- NFTService.getAllNFTs with its catch boundary. -/
def getAllNFTs (env : Env) (page limit : Option Nat) (listed : Option Bool) :
    Except String (List INFT) :=
  catchWrap (getAllNFTsAux env page limit listed) "Couldn\x27t get NFTs"

/-- NFTService.getNFTsFromOwner body. -/
def getNFTsFromOwnerAux (env : Env) (ownerId : String) (page limit : Option Nat) (listed : Option Bool) :
    Except Unit (List INFT) :=
  match requestIndexer env (applyPagination page limit (applyListed listed
      (distinctOnSerie (env.chain.filter (fun n => n.owner == ownerId))))) with
  | .error e => .error e
  | .ok nodes => promiseAll (populateNFT env) nodes

/-- NFTService.getNFTsFromOwner with its catch boundary. -/
def getNFTsFromOwner (env : Env) (ownerId : String) (page limit : Option Nat) (listed : Option Bool) :
    Except String (List INFT) :=
  catchWrap (getNFTsFromOwnerAux env ownerId page limit listed) "Couldn\x27t get user\x27s owned NFTs"

/-- NFTService.getNFTsFromCreator body. -/
def getNFTsFromCreatorAux (env : Env) (creatorId : String) (page limit : Option Nat) (listed : Option Bool) :
    Except Unit (List INFT) :=
  match requestIndexer env (applyPagination page limit (applyListed listed
      (distinctOnSerie (env.chain.filter (fun n => n.creator == creatorId))))) with
  | .error e => .error e
  | .ok nodes => promiseAll (populateNFT env) nodes

/-- NFTService.getNFTsFromCreator with its catch boundary. -/
def getNFTsFromCreator (env : Env) (creatorId : String) (page limit : Option Nat) (listed : Option Bool) :
    Except String (List INFT) :=
  catchWrap (getNFTsFromCreatorAux env creatorId page limit listed) "Couldn\x27t get creator\x27s NFTs"

/-- NFTService.getNFTsFromIds body (plain `nftEntities` envelope, no series
deduplication). -/
def getNFTsFromIdsAux (env : Env) (ids : List String) (page limit : Option Nat) (listed : Option Bool) :
    Except Unit (List INFT) :=
  match requestIndexer env (applyPagination page limit (applyListed listed
      (env.chain.filter (fun n => ids.contains n.id)))) with
  | .error e => .error e
  | .ok nodes => promiseAll (populateNFT env) nodes

/-- NFTService.getNFTsFromIds with its catch boundary. -/
def getNFTsFromIds (env : Env) (ids : List String) (page limit : Option Nat) (listed : Option Bool) :
    Except String (List INFT) :=
  catchWrap (getNFTsFromIdsAux env ids page limit listed) "Couldn\x27t get NFTs from ids"

/-- NFTService.getNFTsFromIdsDistinct body (same query, distinct-by-series
envelope). -/
def getNFTsFromIdsDistinctAux (env : Env) (ids : List String) (page limit : Option Nat) (listed : Option Bool) :
    Except Unit (List INFT) :=
  match requestIndexer env (applyPagination page limit (applyListed listed
      (distinctOnSerie (env.chain.filter (fun n => ids.contains n.id))))) with
  | .error e => .error e
  | .ok nodes => promiseAll (populateNFT env) nodes

/-- NFTService.getNFTsFromIdsDistinct with its catch boundary. -/
def getNFTsFromIdsDistinct (env : Env) (ids : List String) (page limit : Option Nat) (listed : Option Bool) :
    Except String (List INFT) :=
  catchWrap (getNFTsFromIdsDistinctAux env ids page limit listed) "Couldn\x27t get NFTs from ids"

/-- NFTService.getNFTsNotInIds body. -/
def getNFTsNotInIdsAux (env : Env) (ids : List String) (page limit : Option Nat) (listed : Option Bool) :
    Except Unit (List INFT) :=
  match requestIndexer env (applyPagination page limit (applyListed listed
      (distinctOnSerie (env.chain.filter (fun n => !(ids.contains n.id)))))) with
  | .error e => .error e
  | .ok nodes => promiseAll (populateNFT env) nodes

/-- NFTService.getNFTsNotInIds with its catch boundary. -/
def getNFTsNotInIds (env : Env) (ids : List String) (page limit : Option Nat) (listed : Option Bool) :
    Except String (List INFT) :=
  catchWrap (getNFTsNotInIdsAux env ids page limit listed) "Couldn\x27t get NFTs not in ids"

/-- NFTService.getNFTsForSerie body: indexer records sharing the serie id of
the given record, with no enrichment merge in this path. -/
def getNFTsForSerieAux (env : Env) (nft : INFT) (page limit : Option Nat) :
    Except Unit (List INFT) :=
  requestIndexer env (applyPagination page limit
    (env.chain.filter (fun n => n.serieId == nft.serieId)))

/-- NFTService.getNFTsForSerie with its catch boundary. -/
def getNFTsForSerie (env : Env) (nft : INFT) (page limit : Option Nat) :
    Except String (List INFT) :=
  catchWrap (getNFTsForSerieAux env nft page limit) "Couldn\x27t get NFTs for this serie"

/-- Modelled from the spec (QueriesBuilder.countOwnerOwned indexer total,
file not in src): number of indexed NFTs currently owned by the wallet. -/
def countOwnerOwned (env : Env) (w : String) : Nat :=
  (env.chain.filter (fun n => n.owner == w)).length

/-- Modelled from the spec (QueriesBuilder.countOwnerOwnedListed): number of
indexed NFTs owned by the wallet and listed. -/
def countOwnerOwnedListed (env : Env) (w : String) : Nat :=
  (env.chain.filter (fun n => n.owner == w && n.listed)).length

/-- Modelled from the spec (QueriesBuilder.countOwnerOwnedUnlisted): number
of indexed NFTs owned by the wallet and not listed. -/
def countOwnerOwnedUnlisted (env : Env) (w : String) : Nat :=
  (env.chain.filter (fun n => n.owner == w && !n.listed)).length

/-- Modelled from the spec (QueriesBuilder.countCreated): number of indexed
NFTs created by the wallet. -/
def countCreated (env : Env) (w : String) : Nat :=
  (env.chain.filter (fun n => n.creator == w)).length

/-- The six counters returned by getStatNFTsUser. -/
structure UserStats where
  countOwned : Nat
  countOwnedListed : Nat
  countOwnedUnlisted : Nat
  countCreated : Nat
  countFollowers : Nat
  countFollowed : Nat
deriving DecidableEq, Repr

/-- NFTService.getStatNFTsUser body: resolve the wallet to a local user
record (absent user is an internal error), then take the four indexer count
totals and the lengths of the follow-edge queries by followed / follower
endpoint. -/
def getStatNFTsUserAux (env : Env) (w : String) : Except Unit UserStats :=
  if env.mongoFails then .error () else
  match env.users.find? (fun u => u.walletId == w) with
  | none => .error ()
  | some user =>
    if env.indexerFails then .error () else
    .ok { countOwned := countOwnerOwned env w
        , countOwnedListed := countOwnerOwnedListed env w
        , countOwnedUnlisted := countOwnerOwnedUnlisted env w
        , countCreated := countCreated env w
        , countFollowers := (env.follows.filter (fun e => e.followed == user.id)).length
        , countFollowed := (env.follows.filter (fun e => e.follower == user.id)).length }

/-- NFTService.getStatNFTsUser with its catch boundary. -/
def getStatNFTsUser (env : Env) (w : String) : Except String UserStats :=
  catchWrap (getStatNFTsUserAux env w) "Couldn\x27t get users stat"

/-- The chain ids of the local enrichment records whose category set is
non-empty (the Mongo query categories exists and not in [[], null]). -/
def categorizedChainIds (env : Env) : List String :=
  (env.mongoNfts.filter (fun r => !r.categories.isEmpty)).map MongoNft.chainId

/-- The resolution of a list of category codes performed by
getNFTsFromCategories: each code maps to its category object id, an
unresolvable code to an absent entry. -/
def resolveCodes (env : Env) (codes : List String) : List (Option String) :=
  codes.map (fun x => (getCategoryByCode env x).map Category.id)

/-- The Mongo categories-in filter of getNFTsFromCategories: a record
matches when one of its category references equals one of the resolved ids;
absent slots on either side never match. -/
def nftMatchesCategories (resolved : List (Option String)) (r : MongoNft) : Bool :=
  r.categories.any (fun oc =>
    match oc with
    | some c => resolved.contains (some c)
    | none => false)

/-- NFTService.getNFTsFromCategories body. codes null: collect the chain ids
of the categorized local records and ask the indexer for records not in that
set, then enrich again. codes non-null: resolve the codes, collect the chain
ids of the local records tagged with any resolved category, ask the indexer
for exactly those ids deduplicated by series, then enrich again. -/
def getNFTsFromCategoriesAux (env : Env) (codes : Option (List String))
    (page limit : Option Nat) (listed : Option Bool) : Except Unit (List INFT) :=
  if env.mongoFails then .error () else
  match codes with
  | none =>
    match getNFTsNotInIds env (categorizedChainIds env) page limit listed with
    | .error _ => .error ()
    | .ok nodes => promiseAll (populateNFT env) nodes
  | some cs =>
    match getNFTsFromIdsDistinct env
        ((env.mongoNfts.filter (nftMatchesCategories (resolveCodes env cs))).map MongoNft.chainId)
        page limit listed with
    | .error _ => .error ()
    | .ok nodes => promiseAll (populateNFT env) nodes

/-- NFTService.getNFTsFromCategories with its catch boundary. -/
def getNFTsFromCategories (env : Env) (codes : Option (List String))
    (page limit : Option Nat) (listed : Option Bool) : Except String (List INFT) :=
  catchWrap (getNFTsFromCategoriesAux env codes page limit listed) "Couldn\x27t get NFTs by categories"

/-- NFTService.createNFT: resolve every category code (an unresolvable code
becomes an absent slot, not a failure) and persist a new enrichment record
keyed by the chain id; only a store failure is an error. Returns the new
record together with the updated store. -/
def createNFT (env : Env) (dto : INftDto) : Except String (MongoNft × List MongoNft) :=
  if env.mongoFails then .error "NFT can\x27t be created"
  else
    let newNft : MongoNft := ⟨dto.chainId, resolveCodes env dto.categories⟩
    .ok (newNft, env.mongoNfts ++ [newNft])

/-- An enrichment record with its category references expanded to category
documents (Mongo populate of the categories path). -/
structure PopulatedMongoNft where
  chainId : String
  categories : List (Option Category)
deriving DecidableEq, Repr

/-- Expansion of one category reference: an absent slot stays absent, a
dangling reference expands to absent. -/
def resolveCategoryRef (env : Env) (ref : Option String) : Option Category :=
  ref.bind (fun cid => env.categories.find? (fun c => c.id == cid))

/-- NFTService.findMongoNftFromId: look up the enrichment record by chain id
with categories expanded; an absent record returns null rather than an
error, only a store failure raises the distinct error. -/
def findMongoNftFromId (env : Env) (nftId : String) : Except String (Option PopulatedMongoNft) :=
  if env.mongoFails then .error "Couldn\x27t get mongo NFT"
  else
    match env.mongoNfts.find? (fun r => r.chainId == nftId) with
    | none => .ok none
    | some r => .ok (some ⟨r.chainId, r.categories.map (resolveCategoryRef env)⟩)

/-- A small concrete environment used by the witnesses: two chain records
(one without a serie, one in serie s1), one enrichment record for chain id 1
tagged with category c1 (code art), one user, one stored view event from
another address. -/
def envW : Env :=
  { chain := [⟨"1", "0", "alice", "bob", true, [], 0⟩, ⟨"2", "s1", "alice", "bob", false, [], 0⟩]
  , indexerFails := false
  , populateFails := []
  , mongoNfts := [⟨"1", [some "c1"]⟩]
  , mongoFails := false
  , users := [⟨"u1", "alice"⟩]
  , follows := []
  , categories := [⟨"c1", "art"⟩]
  , nftViews := [⟨"0", "1", none, some "9.9.9.9", 50⟩]
  , timeBetweenSameUserViews := 10 }

/-- The record getNFT returns on envW when a view event is recorded. -/
def nftW1 : INFT := ⟨"1", "0", "alice", "bob", true, [some "c1"], 2⟩

/-- The view store getNFT returns on envW when a view event is recorded. -/
def storeW1 : List NftView :=
  [⟨"0", "1", none, some "9.9.9.9", 50⟩, ⟨"0", "1", none, some "1.2.3.4", 100⟩]

/-- The record getNFT returns on envW with incViews set and no viewer. -/
def nftW2 : INFT := ⟨"1", "0", "alice", "bob", true, [some "c1"], 1⟩

/-- The record getNFT returns on envW with incViews unset. -/
def nftW3 : INFT := ⟨"1", "0", "alice", "bob", true, [some "c1"], 0⟩

/-! ### General lemmas about the try/catch boundary and batched enrichment -/

theorem catchWrap_ok_iff {α : Type} (body : Except Unit α) (msg : String) (a : α) :
    catchWrap body msg = .ok a ↔ body = .ok a := by
  cases body <;> simp [catchWrap]

theorem catchWrap_error_iff {α : Type} (body : Except Unit α) (msg s : String) :
    catchWrap body msg = .error s ↔ ((∃ e, body = .error e) ∧ s = msg) := by
  cases body <;> simp [catchWrap, eq_comm]

theorem catchWrap_ok_or_fixed_error {α : Type} (body : Except Unit α) (msg : String) :
    (∃ a, catchWrap body msg = .ok a) ∨ catchWrap body msg = .error msg := by
  cases body with
  | ok a => exact Or.inl ⟨a, rfl⟩
  | error e => exact Or.inr rfl

theorem promiseAll_ok_mem {α β : Type} (f : α → Except Unit β) :
    ∀ (xs : List α) (ys : List β), promiseAll f xs = .ok ys →
      ∀ y ∈ ys, ∃ x ∈ xs, f x = .ok y := by
  intro xs
  induction xs with
  | nil =>
    intro ys h y hy
    simp only [promiseAll] at h
    cases h
    simp at hy
  | cons x xs ih =>
    intro ys h y hy
    simp only [promiseAll] at h
    cases hfx : f x with
    | error e => rw [hfx] at h; cases h
    | ok b =>
      rw [hfx] at h
      cases hrest : promiseAll f xs with
      | error e => rw [hrest] at h; cases h
      | ok bs =>
        rw [hrest] at h
        cases h
        rcases List.mem_cons.mp hy with h1 | h2
        · exact ⟨x, List.mem_cons_self x xs, h1 ▸ hfx⟩
        · rcases ih bs hrest y h2 with ⟨x2, hx2, hfx2⟩
          exact ⟨x2, List.mem_cons_of_mem x hx2, hfx2⟩

theorem promiseAll_ok_of_forall {α : Type} (f : α → Except Unit α) :
    ∀ (xs : List α), (∀ x ∈ xs, f x = .ok x) → promiseAll f xs = .ok xs := by
  intro xs
  induction xs with
  | nil => intro _; rfl
  | cons x xs ih =>
    intro h
    simp only [promiseAll]
    rw [h x (List.mem_cons_self x xs), ih (fun y hy => h y (List.mem_cons_of_mem x hy))]

theorem promiseAll_error_of_mem {α β : Type} (f : α → Except Unit β) :
    ∀ (xs : List α) (x : α), x ∈ xs → f x = .error () →
      promiseAll f xs = .error () := by
  intro xs
  induction xs with
  | nil => intro x hx; cases hx
  | cons a xs ih =>
    intro x hx hfx
    rcases List.mem_cons.mp hx with h1 | h2
    · simp only [promiseAll, h1 ▸ hfx]
    · simp only [promiseAll, ih x h2 hfx]
      cases hfa : f a <;> simp

/-! ### getNFT: success-shape lemmas -/

theorem getNFTAux_ok_inc (env : Env) (id : String) (w ip : Option String) (date : Int)
    (nft : INFT) (store : List NftView)
    (h : getNFTAux env id true w ip date = .ok (nft, store)) :
    ((ip.isSome && viewCooldownOk env (scopedViews env nft.serieId id) ip date) = true ∧
       nft.viewsCount = (scopedViews env nft.serieId id).length + 1 ∧
       store = env.nftViews ++ [⟨nft.serieId, id, w, ip, date⟩]) ∨
    ((ip.isSome && viewCooldownOk env (scopedViews env nft.serieId id) ip date) = false ∧
       nft.viewsCount = (scopedViews env nft.serieId id).length ∧
       store = env.nftViews) := by
  rw [getNFTAux] at h
  split at h
  · cases h
  · split at h
    · cases h
    · rename_i nft0 rest heq
      cases hpop : populateNFT env nft0 with
      | error e => rw [hpop] at h; cases h
      | ok nftP =>
        rw [hpop] at h
        simp only [if_true] at h
        by_cases hc : (ip.isSome && viewCooldownOk env (scopedViews env nftP.serieId id) ip date) = true
        · rw [if_pos hc] at h
          cases h
          left
          refine ⟨?_, rfl, rfl⟩
          simpa using hc
        · rw [if_neg hc] at h
          cases h
          right
          refine ⟨?_, rfl, rfl⟩
          simpa using Bool.of_not_eq_true hc

theorem getNFTAux_ok_noinc (env : Env) (id : String) (w ip : Option String) (date : Int)
    (nft : INFT) (store : List NftView)
    (h : getNFTAux env id false w ip date = .ok (nft, store)) :
    nft.viewsCount = 0 ∧ store = env.nftViews := by
  rw [getNFTAux] at h
  split at h
  · cases h
  · split at h
    · cases h
    · cases hpop : populateNFT env _ with
      | error e => rw [hpop] at h; cases h
      | ok nftP =>
        rw [hpop] at h
        simp only [Bool.false_eq_true, if_false] at h
        cases h
        exact ⟨rfl, rfl⟩

theorem viewCooldownOk_iff (env : Env) (views : List NftView) (ip : Option String) (date : Int) :
    viewCooldownOk env views ip date = true ↔
      (views = [] ∨ ∀ v ∈ views, v.viewerIp = ip →
        date - v.date > env.timeBetweenSameUserViews) := by
  simp only [viewCooldownOk, Bool.or_eq_true, List.isEmpty_iff, List.all_eq_true,
    List.mem_filter, beq_iff_eq, and_imp, decide_eq_true_eq, gt_iff_lt]

/-- C1: for every call to getNFT with incViews set, a new view event is
recorded exactly when a viewer address is present and either no prior view
event exists for the record scope, or every prior event from that same
viewer address is older than the cooldown (in particular the most recent
one); the returned viewsCount is the number of prior scoped events plus one
when a new event is recorded, and the number of prior scoped events
otherwise; with an absent viewer address no event is ever recorded. -/
theorem getNFT_view_record_iff (env : Env) (id : String) (w ip : Option String)
    (date : Int) (nft : INFT) (store : List NftView)
    (h : getNFT env id true w ip date = .ok (nft, store)) :
    ((store = env.nftViews ∧ nft.viewsCount = (scopedViews env nft.serieId id).length) ∨
      (store = env.nftViews ++ [⟨nft.serieId, id, w, ip, date⟩] ∧
        nft.viewsCount = (scopedViews env nft.serieId id).length + 1)) ∧
    (store ≠ env.nftViews ↔
      (ip.isSome = true ∧
        (scopedViews env nft.serieId id = [] ∨
          ∀ v ∈ scopedViews env nft.serieId id, v.viewerIp = ip →
            date - v.date > env.timeBetweenSameUserViews))) := by
  rw [getNFT, catchWrap_ok_iff] at h
  rcases getNFTAux_ok_inc env id w ip date nft store h with
    ⟨hcond, hcount, hstore⟩ | ⟨hcond, hcount, hstore⟩
  · rw [Bool.and_eq_true, viewCooldownOk_iff] at hcond
    constructor
    · exact Or.inr ⟨hstore, hcount⟩
    · constructor
      · intro _; exact hcond
      · intro _
        rw [hstore]
        intro heq
        have := congrArg List.length heq
        simp at this
  · rw [Bool.and_eq_false_iff] at hcond
    constructor
    · exact Or.inl ⟨hstore, hcount⟩
    · rw [hstore]
      simp only [ne_eq, not_true_eq_false, false_iff, not_and]
      intro hsome
      rcases hcond with h1 | h1
      · exact absurd hsome (by simp [h1])
      · rw [← viewCooldownOk_iff env _ ip date]
        simp [h1]

/-- C5: for every call to getNFT with incViews set, the prior view events
consulted (whose number is the returned viewsCount when no event is written,
here forced by an absent viewer address) are exactly the events whose
viewedSerie equals the record serie id when that serie id is not "0", and
exactly the events whose viewedId equals the requested record id when the
serie id is "0". -/
theorem getNFT_view_scope (env : Env) (id : String) (w : Option String)
    (date : Int) (nft : INFT) (store : List NftView)
    (h : getNFT env id true w none date = .ok (nft, store)) :
    nft.viewsCount = (scopedViews env nft.serieId id).length ∧
    (nft.serieId ≠ "0" →
      scopedViews env nft.serieId id =
        env.nftViews.filter (fun v => v.viewedSerie == nft.serieId)) ∧
    (nft.serieId = "0" →
      scopedViews env nft.serieId id =
        env.nftViews.filter (fun v => v.viewedId == id)) := by
  rw [getNFT, catchWrap_ok_iff] at h
  rcases getNFTAux_ok_inc env id w none date nft store h with
    ⟨hcond, _, _⟩ | ⟨_, hcount, _⟩
  · simp at hcond
  · refine ⟨hcount, ?_, ?_⟩
    · intro hne
      simp only [scopedViews]
      congr 1
      funext v
      rw [if_neg (by simpa using hne)]
    · intro he
      simp only [scopedViews]
      congr 1
      funext v
      rw [if_pos (by simpa using he)]

/-- C10: for every call to getNFT with incViews false, the returned
viewsCount is always 0 regardless of the stored view events, and the
view-event store is unchanged. -/
theorem getNFT_incViews_false_viewsCount_zero (env : Env) (id : String)
    (w ip : Option String) (date : Int) (nft : INFT) (store : List NftView)
    (h : getNFT env id false w ip date = .ok (nft, store)) :
    nft.viewsCount = 0 ∧ store = env.nftViews := by
  rw [getNFT, catchWrap_ok_iff] at h
  exact getNFTAux_ok_noinc env id w ip date nft store h


theorem getNFT_view_record_iff_witness :
    ((storeW1 = envW.nftViews ∧ nftW1.viewsCount = (scopedViews envW nftW1.serieId "1").length) ∨
      (storeW1 = envW.nftViews ++ [⟨nftW1.serieId, "1", none, some "1.2.3.4", 100⟩] ∧
        nftW1.viewsCount = (scopedViews envW nftW1.serieId "1").length + 1)) ∧
    (storeW1 ≠ envW.nftViews ↔
      ((some "1.2.3.4").isSome = true ∧
        (scopedViews envW nftW1.serieId "1" = [] ∨
          ∀ v ∈ scopedViews envW nftW1.serieId "1", v.viewerIp = some "1.2.3.4" →
            100 - v.date > envW.timeBetweenSameUserViews))) :=
  getNFT_view_record_iff envW "1" none (some "1.2.3.4") 100 nftW1 storeW1 (by rfl)

theorem getNFT_view_scope_witness :
    nftW2.viewsCount = (scopedViews envW nftW2.serieId "1").length ∧
    (nftW2.serieId ≠ "0" →
      scopedViews envW nftW2.serieId "1" =
        envW.nftViews.filter (fun v => v.viewedSerie == nftW2.serieId)) ∧
    (nftW2.serieId = "0" →
      scopedViews envW nftW2.serieId "1" =
        envW.nftViews.filter (fun v => v.viewedId == "1")) :=
  getNFT_view_scope envW "1" none 100 nftW2 envW.nftViews (by rfl)

theorem getNFT_incViews_false_viewsCount_zero_witness :
    nftW3.viewsCount = 0 ∧ envW.nftViews = envW.nftViews :=
  getNFT_incViews_false_viewsCount_zero envW "1" none none 100 nftW3 envW.nftViews (by rfl)

/-! ### getStatNFTsUser -/

/-- C4: for every wallet id whose user record exists, getStatNFTsUser
returns the four indexer count totals together with the number of follow
edges whose followed endpoint, respectively follower endpoint, is the user
local id; a user with no follow edges in either direction gets zero for
both; for a wallet id with no user record the call fails. -/
theorem getStatNFTsUser_spec (env : Env) (w : String)
    (hm : env.mongoFails = false) (hi : env.indexerFails = false) :
    (∀ user, env.users.find? (fun u => u.walletId == w) = some user →
      getStatNFTsUser env w = .ok
        { countOwned := countOwnerOwned env w
        , countOwnedListed := countOwnerOwnedListed env w
        , countOwnedUnlisted := countOwnerOwnedUnlisted env w
        , countCreated := countCreated env w
        , countFollowers := (env.follows.filter (fun e => e.followed == user.id)).length
        , countFollowed := (env.follows.filter (fun e => e.follower == user.id)).length } ∧
      ((∀ e ∈ env.follows, e.followed ≠ user.id ∧ e.follower ≠ user.id) →
        ∃ s, getStatNFTsUser env w = .ok s ∧ s.countFollowers = 0 ∧ s.countFollowed = 0)) ∧
    (env.users.find? (fun u => u.walletId == w) = none →
      getStatNFTsUser env w = .error "Couldn\x27t get users stat") := by
  constructor
  · intro user hu
    have hok : getStatNFTsUser env w = .ok
        { countOwned := countOwnerOwned env w
        , countOwnedListed := countOwnerOwnedListed env w
        , countOwnedUnlisted := countOwnerOwnedUnlisted env w
        , countCreated := countCreated env w
        , countFollowers := (env.follows.filter (fun e => e.followed == user.id)).length
        , countFollowed := (env.follows.filter (fun e => e.follower == user.id)).length } := by
      rw [getStatNFTsUser, getStatNFTsUserAux, hm, hu, hi]
      rfl
    refine ⟨hok, fun hnone => ⟨_, hok, ?_, ?_⟩⟩
    · simp only [List.length_eq_zero, List.filter_eq_nil]
      intro e he
      simpa using (hnone e he).1
    · simp only [List.length_eq_zero, List.filter_eq_nil]
      intro e he
      simpa using (hnone e he).2
  · intro hu
    rw [getStatNFTsUser, getStatNFTsUserAux, hm, hu]
    rfl

theorem getStatNFTsUser_spec_witness :
    getStatNFTsUser envW "alice" = .ok
      { countOwned := countOwnerOwned envW "alice"
      , countOwnedListed := countOwnerOwnedListed envW "alice"
      , countOwnedUnlisted := countOwnerOwnedUnlisted envW "alice"
      , countCreated := countCreated envW "alice"
      , countFollowers := (envW.follows.filter (fun e => e.followed == "u1")).length
      , countFollowed := (envW.follows.filter (fun e => e.follower == "u1")).length } :=
  ((getStatNFTsUser_spec envW "alice" rfl rfl).1 ⟨"u1", "alice"⟩ (by rfl)).1

/-! ### createNFT and findMongoNftFromId -/

/-- C7: createNFT resolves every category code, an unresolvable code
becoming an absent slot of the persisted category list rather than a
rejection, and persists the new enrichment record keyed by the given chain
id (appended to the store). -/
theorem createNFT_lenient (env : Env) (dto : INftDto) (hm : env.mongoFails = false) :
    createNFT env dto =
      .ok (⟨dto.chainId, resolveCodes env dto.categories⟩,
           env.mongoNfts ++ [⟨dto.chainId, resolveCodes env dto.categories⟩]) ∧
    (none ∈ resolveCodes env dto.categories ↔
      ∃ code ∈ dto.categories, getCategoryByCode env code = none) ∧
    (∀ (i : Nat) (h1 : i < dto.categories.length)
        (h2 : i < (resolveCodes env dto.categories).length),
      getCategoryByCode env dto.categories[i] = none →
      (resolveCodes env dto.categories)[i] = none) := by
  refine ⟨by simp [createNFT, hm], ?_, ?_⟩
  · simp only [resolveCodes, List.mem_map, Option.map_eq_none']
  · intro i h1 h2 hnone
    simp [resolveCodes, hnone]

theorem createNFT_lenient_witness :
    createNFT envW ⟨"9", ["art", "nosuchcode"]⟩ =
      .ok (⟨"9", resolveCodes envW ["art", "nosuchcode"]⟩,
           envW.mongoNfts ++ [⟨"9", resolveCodes envW ["art", "nosuchcode"]⟩]) ∧
    (none ∈ resolveCodes envW ["art", "nosuchcode"] ↔
      ∃ code ∈ ["art", "nosuchcode"], getCategoryByCode envW code = none) ∧
    (∀ (i : Nat) (h1 : i < (["art", "nosuchcode"] : List String).length)
        (h2 : i < (resolveCodes envW ["art", "nosuchcode"]).length),
      getCategoryByCode envW (["art", "nosuchcode"] : List String)[i] = none →
      (resolveCodes envW ["art", "nosuchcode"])[i] = none) :=
  createNFT_lenient envW ⟨"9", ["art", "nosuchcode"]⟩ rfl

/-- C8: findMongoNftFromId returns the enrichment record with categories
resolved when one exists, returns an absent result rather than an error when
none exists, and only a store failure raises the distinct mongo error. -/
theorem findMongoNftFromId_spec (env : Env) (nftId : String) :
    (env.mongoFails = true →
      findMongoNftFromId env nftId = .error "Couldn\x27t get mongo NFT") ∧
    (env.mongoFails = false →
      ((∀ r ∈ env.mongoNfts, r.chainId ≠ nftId) →
        findMongoNftFromId env nftId = .ok none) ∧
      (∀ r, env.mongoNfts.find? (fun s => s.chainId == nftId) = some r →
        findMongoNftFromId env nftId =
          .ok (some ⟨r.chainId, r.categories.map (resolveCategoryRef env)⟩))) := by
  refine ⟨fun hm => by simp [findMongoNftFromId, hm], fun hm => ⟨fun habs => ?_, fun r hr => ?_⟩⟩
  · have hfind : env.mongoNfts.find? (fun s => s.chainId == nftId) = none := by
      rw [List.find?_eq_none]
      intro r hr
      simpa using habs r hr
    simp [findMongoNftFromId, hm, hfind]
  · simp [findMongoNftFromId, hm, hr]

theorem findMongoNftFromId_spec_witness :
    findMongoNftFromId envW "1" = .ok (some ⟨"1", [some ⟨"c1", "art"⟩]⟩) :=
  ((findMongoNftFromId_spec envW "1").2 rfl).2 ⟨"1", [some "c1"]⟩ (by rfl)

/-! ### Membership lemmas for the query pipeline -/

theorem mem_applyListed {x : INFT} {l : Option Bool} {xs : List INFT}
    (h : x ∈ applyListed l xs) : x ∈ xs := by
  cases l with
  | none => simpa [applyListed] using h
  | some b =>
    simp only [applyListed] at h
    exact (List.mem_filter.mp h).1

theorem mem_applyPagination {x : INFT} {p l : Option Nat} {xs : List INFT}
    (h : x ∈ applyPagination p l xs) : x ∈ xs := by
  cases l with
  | none => simpa [applyPagination] using h
  | some lim =>
    simp only [applyPagination] at h
    exact List.mem_of_mem_drop (List.mem_of_mem_take h)

theorem mem_distinctOnSerieAux :
    ∀ (seen : List String) (l : List INFT) (x : INFT),
      x ∈ distinctOnSerieAux seen l → x ∈ l := by
  intro seen l
  induction l generalizing seen with
  | nil => intro x h; simpa [distinctOnSerieAux] using h
  | cons n rest ih =>
    intro x h
    simp only [distinctOnSerieAux] at h
    split at h
    · rcases List.mem_cons.mp h with h1 | h2
      · exact h1 ▸ List.mem_cons_self n rest
      · exact List.mem_cons_of_mem n (ih seen x h2)
    · split at h
      · exact List.mem_cons_of_mem n (ih seen x h)
      · rcases List.mem_cons.mp h with h1 | h2
        · exact h1 ▸ List.mem_cons_self n rest
        · exact List.mem_cons_of_mem n (ih _ x h2)

theorem mem_distinctOnSerie {x : INFT} {l : List INFT}
    (h : x ∈ distinctOnSerie l) : x ∈ l :=
  mem_distinctOnSerieAux [] l x h

theorem populateNFT_ok_id {env : Env} {n m : INFT}
    (h : populateNFT env n = .ok m) : m.id = n.id := by
  rw [populateNFT] at h
  split at h
  · cases h
  · cases h; rfl

theorem populateNFT_ok_fields {env : Env} {n m : INFT}
    (h : populateNFT env n = .ok m) :
    m = { n with categories :=
            match env.mongoNfts.find? (fun r => r.chainId == n.id) with
            | some r => r.categories
            | none => [] } := by
  rw [populateNFT] at h
  split at h
  · cases h
  · cases h; rfl

theorem getNFTsNotInIdsAux_ok {env : Env} {ids : List String} {p l : Option Nat}
    {ld : Option Bool} {nodes : List INFT}
    (h : getNFTsNotInIdsAux env ids p l ld = .ok nodes) :
    env.indexerFails = false ∧
    promiseAll (populateNFT env)
      (applyPagination p l (applyListed ld
        (distinctOnSerie (env.chain.filter (fun n => !(ids.contains n.id)))))) = .ok nodes := by
  cases hif : env.indexerFails with
  | false =>
    rw [getNFTsNotInIdsAux, requestIndexer, hif] at h
    simp only [Bool.false_eq_true, if_false] at h
    exact ⟨rfl, h⟩
  | true =>
    rw [getNFTsNotInIdsAux, requestIndexer, hif] at h
    simp only [if_true] at h
    cases h

/-- A chain id outside the categorized set has only empty local category
assignments. -/
theorem not_categorized {env : Env} {x : String}
    (hx : ¬ x ∈ categorizedChainIds env) :
    ∀ r ∈ env.mongoNfts, r.chainId = x → r.categories = [] := by
  intro r hr hid
  by_contra hne
  apply hx
  simp only [categorizedChainIds, List.mem_map]
  refine ⟨r, List.mem_filter.mpr ⟨hr, ?_⟩, hid⟩
  simpa [List.isEmpty_iff] using hne

/-- C3: getNFTsFromCategories with codes null collects the chain ids of the
local records with a non-empty category set, asks the indexer for records
not in that id set, and enriches; consequently no returned NFT has a
non-empty category assignment in the local store. -/
theorem getNFTsFromCategories_null_uncategorized (env : Env)
    (page limit : Option Nat) (listed : Option Bool) (nodes : List INFT)
    (h : getNFTsFromCategories env none page limit listed = .ok nodes) :
    (∃ nodes1, getNFTsNotInIds env (categorizedChainIds env) page limit listed = .ok nodes1 ∧
       promiseAll (populateNFT env) nodes1 = .ok nodes) ∧
    ∀ nft ∈ nodes, ∀ r ∈ env.mongoNfts, r.chainId = nft.id → r.categories = [] := by
  rw [getNFTsFromCategories, catchWrap_ok_iff, getNFTsFromCategoriesAux] at h
  split at h
  · cases h
  · cases hinner : getNFTsNotInIds env (categorizedChainIds env) page limit listed with
    | error s => rw [hinner] at h; cases h
    | ok nodes1 =>
      rw [hinner] at h
      refine ⟨⟨nodes1, rfl, h⟩, ?_⟩
      intro nft hnft r hr hid
      obtain ⟨n1, hn1, hpop1⟩ := promiseAll_ok_mem _ nodes1 nodes h nft hnft
      rw [getNFTsNotInIds, catchWrap_ok_iff] at hinner
      obtain ⟨hif, hbase⟩ := getNFTsNotInIdsAux_ok hinner
      obtain ⟨n0, hn0, hpop0⟩ := promiseAll_ok_mem _ _ nodes1 hbase n1 hn1
      have hidchain : nft.id = n0.id := by
        rw [populateNFT_ok_id hpop1, populateNFT_ok_id hpop0]
      have hfilter := mem_distinctOnSerie (mem_applyListed (mem_applyPagination hn0))
      have hpred := (List.mem_filter.mp hfilter).2
      have hnotin : ¬ n0.id ∈ categorizedChainIds env := by
        simpa using hpred
      exact not_categorized hnotin r hr (by rw [hid, hidchain])

theorem getNFTsFromCategories_null_uncategorized_witness :
    (∃ nodes1, getNFTsNotInIds envW (categorizedChainIds envW) none none none = .ok nodes1 ∧
       promiseAll (populateNFT envW) nodes1 = .ok [⟨"2", "s1", "alice", "bob", false, [], 0⟩]) ∧
    ∀ nft ∈ [(⟨"2", "s1", "alice", "bob", false, [], 0⟩ : INFT)],
      ∀ r ∈ envW.mongoNfts, r.chainId = nft.id → r.categories = [] :=
  getNFTsFromCategories_null_uncategorized envW none none none
    [⟨"2", "s1", "alice", "bob", false, [], 0⟩] (by rfl)

/-! ### getNFTsFromCategories with a list of codes -/

theorem getNFTsFromIdsDistinctAux_ok {env : Env} {ids : List String} {p l : Option Nat}
    {ld : Option Bool} {nodes : List INFT}
    (h : getNFTsFromIdsDistinctAux env ids p l ld = .ok nodes) :
    env.indexerFails = false ∧
    promiseAll (populateNFT env)
      (applyPagination p l (applyListed ld
        (distinctOnSerie (env.chain.filter (fun n => ids.contains n.id))))) = .ok nodes := by
  cases hif : env.indexerFails with
  | false =>
    rw [getNFTsFromIdsDistinctAux, requestIndexer, hif] at h
    simp only [Bool.false_eq_true, if_false] at h
    exact ⟨rfl, h⟩
  | true =>
    rw [getNFTsFromIdsDistinctAux, requestIndexer, hif] at h
    simp only [if_true] at h
    cases h

/-- In a store whose chain ids are pairwise distinct, the lookup by the
chain id of a member returns that member. -/
theorem find?_chainId_eq_of_nodup {l : List MongoNft}
    (hnd : (l.map MongoNft.chainId).Nodup) {r : MongoNft} (hr : r ∈ l) :
    l.find? (fun s => s.chainId == r.chainId) = some r := by
  induction l with
  | nil => cases hr
  | cons a rest ih =>
    rcases List.mem_cons.mp hr with h1 | h2
    · subst h1
      exact List.find?_cons_of_pos _ (by simp)
    · by_cases hc : a.chainId = r.chainId
      · exfalso
        have : r.chainId ∈ rest.map MongoNft.chainId := List.mem_map_of_mem _ h2
        rw [List.map_cons, List.nodup_cons] at hnd
        exact hnd.1 (hc ▸ this)
      · rw [List.find?_cons_of_neg _ (by simpa using hc)]
        rw [List.map_cons, List.nodup_cons] at hnd
        exact ih hnd.2 h2

/-- C2: getNFTsFromCategories with a non-null code list resolves the codes
(skipping unresolvable ones), collects the chain ids of the local records
tagged with any resolved category, asks the indexer for exactly those ids
deduplicated by series, and enriches; consequently, when the local store
keys records uniquely by chain id, no returned NFT lacks every requested
category. -/
theorem getNFTsFromCategories_codes_spec (env : Env) (codes : List String)
    (page limit : Option Nat) (listed : Option Bool) (nodes : List INFT)
    (huniq : (env.mongoNfts.map MongoNft.chainId).Nodup)
    (h : getNFTsFromCategories env (some codes) page limit listed = .ok nodes) :
    (∃ nodes1,
       getNFTsFromIdsDistinct env
         ((env.mongoNfts.filter (nftMatchesCategories (resolveCodes env codes))).map MongoNft.chainId)
         page limit listed = .ok nodes1 ∧
       promiseAll (populateNFT env) nodes1 = .ok nodes) ∧
    ∀ nft ∈ nodes, ∃ code ∈ codes, ∃ cat, getCategoryByCode env code = some cat ∧
      some cat.id ∈ nft.categories := by
  rw [getNFTsFromCategories, catchWrap_ok_iff, getNFTsFromCategoriesAux] at h
  split at h
  · cases h
  · cases hinner : getNFTsFromIdsDistinct env
        ((env.mongoNfts.filter (nftMatchesCategories (resolveCodes env codes))).map MongoNft.chainId)
        page limit listed with
    | error s => rw [hinner] at h; cases h
    | ok nodes1 =>
      rw [hinner] at h
      refine ⟨⟨nodes1, rfl, h⟩, ?_⟩
      intro nft hnft
      obtain ⟨n1, hn1, hpop1⟩ := promiseAll_ok_mem _ nodes1 nodes h nft hnft
      rw [getNFTsFromIdsDistinct, catchWrap_ok_iff] at hinner
      obtain ⟨hif, hbase⟩ := getNFTsFromIdsDistinctAux_ok hinner
      obtain ⟨n0, hn0, hpop0⟩ := promiseAll_ok_mem _ _ nodes1 hbase n1 hn1
      have hfilter := mem_distinctOnSerie (mem_applyListed (mem_applyPagination hn0))
      have hpred := (List.mem_filter.mp hfilter).2
      have hmemids : n0.id ∈
          (env.mongoNfts.filter (nftMatchesCategories (resolveCodes env codes))).map MongoNft.chainId := by
        simpa using hpred
      obtain ⟨rm, hrm, hrmid⟩ := List.mem_map.mp hmemids
      have hrmstore : rm ∈ env.mongoNfts := (List.mem_filter.mp hrm).1
      have hrmmatch := (List.mem_filter.mp hrm).2
      rw [nftMatchesCategories, List.any_eq_true] at hrmmatch
      obtain ⟨oc, hoc, hocmatch⟩ := hrmmatch
      cases oc with
      | none => simp at hocmatch
      | some c =>
        simp only [List.contains_iff_exists_mem_beq] at hocmatch
        have hcres : some c ∈ resolveCodes env codes := by
          obtain ⟨b, hb, hbeq⟩ := hocmatch
          exact (beq_iff_eq.mp hbeq) ▸ hb
        rw [resolveCodes] at hcres
        obtain ⟨code, hcode, hcodeq⟩ := List.mem_map.mp hcres
        obtain ⟨cat, hcat, hcatid⟩ := Option.map_eq_some'.mp hcodeq
        refine ⟨code, hcode, cat, hcat, ?_⟩
        have hid1 : n1.id = n0.id := populateNFT_ok_id hpop0
        have hfind : env.mongoNfts.find? (fun s => s.chainId == n1.id) = some rm := by
          rw [hid1, ← hrmid]
          exact find?_chainId_eq_of_nodup huniq hrmstore
        have hfields := populateNFT_ok_fields hpop1
        rw [hfields]
        simp only [hfind]
        exact hcatid ▸ hoc

theorem getNFTsFromCategories_codes_spec_witness :
    (∃ nodes1,
       getNFTsFromIdsDistinct envW
         ((envW.mongoNfts.filter (nftMatchesCategories (resolveCodes envW ["art"]))).map MongoNft.chainId)
         none none none = .ok nodes1 ∧
       promiseAll (populateNFT envW) nodes1 =
         .ok [⟨"1", "0", "alice", "bob", true, [some "c1"], 0⟩]) ∧
    ∀ nft ∈ [(⟨"1", "0", "alice", "bob", true, [some "c1"], 0⟩ : INFT)],
      ∃ code ∈ ["art"], ∃ cat, getCategoryByCode envW code = some cat ∧
        some cat.id ∈ nft.categories :=
  getNFTsFromCategories_codes_spec envW ["art"] none none none
    [⟨"1", "0", "alice", "bob", true, [some "c1"], 0⟩] (by decide) (by rfl)

/-! ### The enrichment merge: idempotence and order independence -/

/-- C6: the per-record enrichment merge is idempotent and order-independent
across the records of a batch, and consequently the list operation that
enriches inside a nested call and then enriches again at the outer call
(getNFTsFromCategories with codes null over getNFTsNotInIds) returns the
singly-enriched nodes unchanged. -/
theorem populateNFT_merge_idempotent (env : Env) :
    (∀ n m, populateNFT env n = .ok m → populateNFT env m = .ok m) ∧
    (∀ (l1 l2 r1 : List INFT), l1.Perm l2 →
      promiseAll (populateNFT env) l1 = .ok r1 →
      ∃ r2, promiseAll (populateNFT env) l2 = .ok r2 ∧ r1.Perm r2) ∧
    (∀ (page limit : Option Nat) (listed : Option Bool) (nodes : List INFT),
      env.mongoFails = false →
      getNFTsNotInIds env (categorizedChainIds env) page limit listed = .ok nodes →
      getNFTsFromCategories env none page limit listed = .ok nodes) := by
  have hidem : ∀ n m, populateNFT env n = .ok m → populateNFT env m = .ok m := by
    intro n m h
    rw [populateNFT] at h
    split at h
    · cases h
    · rename_i hnf
      cases h
      simp only [populateNFT]
      rw [if_neg hnf]
  refine ⟨hidem, ?_, ?_⟩
  · intro l1 l2 r1 hperm
    induction hperm generalizing r1 with
    | nil =>
      intro h
      exact ⟨r1, h, List.Perm.refl r1⟩
    | cons x hp ih =>
      rename_i t1 t2
      intro h
      simp only [promiseAll] at h ⊢
      cases hfx : populateNFT env x with
      | error e => rw [hfx] at h; cases h
      | ok y =>
        rw [hfx] at h
        cases hrest : promiseAll (populateNFT env) t1 with
        | error e => rw [hrest] at h; cases h
        | ok ys =>
          rw [hrest] at h
          cases h
          obtain ⟨r2, hr2, hpr⟩ := ih ys hrest
          rw [hr2]
          exact ⟨y :: r2, rfl, List.Perm.cons y hpr⟩
    | swap x y t =>
      intro h
      simp only [promiseAll] at h ⊢
      cases hfy : populateNFT env y with
      | error e => rw [hfy] at h; cases h
      | ok b =>
        rw [hfy] at h
        cases hfx : populateNFT env x with
        | error e => rw [hfx] at h; cases h
        | ok a =>
          rw [hfx] at h
          cases hrest : promiseAll (populateNFT env) t with
          | error e => rw [hrest] at h; cases h
          | ok ts =>
            rw [hrest] at h
            cases h
            exact ⟨a :: b :: ts, rfl, List.Perm.swap a b ts⟩
    | trans h1 h2 ih1 ih2 =>
      intro h
      obtain ⟨r2, hr2, hp12⟩ := ih1 r1 h
      obtain ⟨r3, hr3, hp23⟩ := ih2 r2 hr2
      exact ⟨r3, hr3, hp12.trans hp23⟩
  · intro page limit listed nodes hm hinner
    rw [getNFTsFromCategories, catchWrap_ok_iff, getNFTsFromCategoriesAux]
    rw [if_neg (by simp [hm]), hinner]
    apply promiseAll_ok_of_forall
    intro nft hnft
    rw [getNFTsNotInIds, catchWrap_ok_iff] at hinner
    obtain ⟨hif, hbase⟩ := getNFTsNotInIdsAux_ok hinner
    obtain ⟨n0, hn0, hpop0⟩ := promiseAll_ok_mem _ _ nodes hbase nft hnft
    exact hidem n0 nft hpop0

theorem populateNFT_merge_idempotent_witness :
    getNFTsFromCategories envW none none none none =
      .ok [⟨"2", "s1", "alice", "bob", false, [], 0⟩] :=
  (populateNFT_merge_idempotent envW).2.2 none none none
    [⟨"2", "s1", "alice", "bob", false, [], 0⟩] rfl (by rfl)

/-! ### Error taxonomy at the operation boundaries -/

/-- C9: every public operation of the service either succeeds or fails with
its fixed coarse message-only error, the internal cause being discarded by
the catch boundary in every path; and in particular, for getAllNFTs, a
single enrichment rejection inside the batch surfaces as exactly the same
error as a total indexer failure. -/
theorem service_errors_coarse (env : Env) :
    (∀ p l ld, (∃ r, getAllNFTs env p l ld = .ok r) ∨
      getAllNFTs env p l ld = .error "Couldn\x27t get NFTs") ∧
    (∀ id inc w ip d, (∃ r, getNFT env id inc w ip d = .ok r) ∨
      getNFT env id inc w ip d = .error "Couldn\x27t get NFT") ∧
    (∀ o p l ld, (∃ r, getNFTsFromOwner env o p l ld = .ok r) ∨
      getNFTsFromOwner env o p l ld = .error "Couldn\x27t get user\x27s owned NFTs") ∧
    (∀ c p l ld, (∃ r, getNFTsFromCreator env c p l ld = .ok r) ∨
      getNFTsFromCreator env c p l ld = .error "Couldn\x27t get creator\x27s NFTs") ∧
    (∀ w, (∃ r, getStatNFTsUser env w = .ok r) ∨
      getStatNFTsUser env w = .error "Couldn\x27t get users stat") ∧
    (∀ ids p l ld, (∃ r, getNFTsFromIds env ids p l ld = .ok r) ∨
      getNFTsFromIds env ids p l ld = .error "Couldn\x27t get NFTs from ids") ∧
    (∀ ids p l ld, (∃ r, getNFTsFromIdsDistinct env ids p l ld = .ok r) ∨
      getNFTsFromIdsDistinct env ids p l ld = .error "Couldn\x27t get NFTs from ids") ∧
    (∀ ids p l ld, (∃ r, getNFTsNotInIds env ids p l ld = .ok r) ∨
      getNFTsNotInIds env ids p l ld = .error "Couldn\x27t get NFTs not in ids") ∧
    (∀ codes p l ld, (∃ r, getNFTsFromCategories env codes p l ld = .ok r) ∨
      getNFTsFromCategories env codes p l ld = .error "Couldn\x27t get NFTs by categories") ∧
    (∀ dto, (∃ r, createNFT env dto = .ok r) ∨
      createNFT env dto = .error "NFT can\x27t be created") ∧
    (∀ nid, (∃ r, findMongoNftFromId env nid = .ok r) ∨
      findMongoNftFromId env nid = .error "Couldn\x27t get mongo NFT") ∧
    (∀ nft p l, (∃ r, getNFTsForSerie env nft p l = .ok r) ∨
      getNFTsForSerie env nft p l = .error "Couldn\x27t get NFTs for this serie") ∧
    (env.indexerFails = true → ∀ p l ld,
      getAllNFTs env p l ld = .error "Couldn\x27t get NFTs") ∧
    (∀ p l ld n, env.indexerFails = false →
      n ∈ applyPagination p l (applyListed ld (distinctOnSerie env.chain)) →
      env.populateFails.contains n.id = true →
      getAllNFTs env p l ld = .error "Couldn\x27t get NFTs") := by
  refine ⟨fun p l ld => catchWrap_ok_or_fixed_error _ _,
    fun id inc w ip d => catchWrap_ok_or_fixed_error _ _,
    fun o p l ld => catchWrap_ok_or_fixed_error _ _,
    fun c p l ld => catchWrap_ok_or_fixed_error _ _,
    fun w => catchWrap_ok_or_fixed_error _ _,
    fun ids p l ld => catchWrap_ok_or_fixed_error _ _,
    fun ids p l ld => catchWrap_ok_or_fixed_error _ _,
    fun ids p l ld => catchWrap_ok_or_fixed_error _ _,
    fun codes p l ld => catchWrap_ok_or_fixed_error _ _,
    fun dto => ?_, fun nid => ?_,
    fun nft p l => catchWrap_ok_or_fixed_error _ _, fun hi p l ld => ?_,
    fun p l ld n hi hmem hfail => ?_⟩
  · cases hm : env.mongoFails with
    | true => right; rw [createNFT, hm]; rfl
    | false => left; exact ⟨_, by rw [createNFT, hm]; rfl⟩
  · cases hm : env.mongoFails with
    | true => right; rw [findMongoNftFromId, hm]; rfl
    | false =>
      left
      cases hf : env.mongoNfts.find? (fun r => r.chainId == nid) with
      | none => exact ⟨none, by rw [findMongoNftFromId, hm, hf]; rfl⟩
      | some r => exact ⟨_, by rw [findMongoNftFromId, hm, hf]; rfl⟩
  · rw [getAllNFTs, getAllNFTsAux, requestIndexer, hi]
    rfl
  · rw [getAllNFTs, getAllNFTsAux, requestIndexer, hi]
    simp only [Bool.false_eq_true, if_false]
    have hperr : populateNFT env n = .error () := by
      rw [populateNFT, if_pos hfail]
    rw [promiseAll_error_of_mem (populateNFT env) _ n hmem hperr]
    rfl

theorem service_errors_coarse_witness :
    getAllNFTs { envW with indexerFails := true } none none none =
      .error "Couldn\x27t get NFTs" ∧
    getAllNFTs { envW with populateFails := ["1"] } none none none =
      .error "Couldn\x27t get NFTs" := by
  constructor
  · exact (service_errors_coarse
      { envW with indexerFails := true }).2.2.2.2.2.2.2.2.2.2.2.2.1 rfl none none none
  · exact (service_errors_coarse
      { envW with populateFails := ["1"] }).2.2.2.2.2.2.2.2.2.2.2.2.2
      none none none ⟨"1", "0", "alice", "bob", true, [], 0⟩ rfl (by decide) (by decide)
